import Mathlib

/-!
Verification of the Morse-code line interpreter and codec of the
eye-blink communicator web application.

The development shallowly embeds the JavaScript sources:
  * `web app v4.2/morse.js` (namespace `Morse`): the full Morse codec
    with punctuation table, `decodeMorse`, `encodeToMorse`.
  * `web app v4.3/communication.js` (namespace `Comm`): the line
    interpreter `handleDataLine`, its fallback codec (`MORSE_CODE_MAP`,
    `isValidMorse`, `decodeMorse`), the manual entry path
    `addManualInput`, and the two transport adapters
    (`handleBluetoothData` and `LineBreakTransformer`).

JavaScript strings are modelled as `List Char`.  JavaScript regular
expression operations that the sources use (`trim`, `split`,
`replace(/\s+/g, ' ')`, `match(/([.\-\s/]+)/)`, `^[.-]+$` tests) are
modelled by executable list functions below.
-/

/-- JavaScript strings are modelled as lists of characters. -/
abbrev Str := List Char

/-- Whitespace recognised by JavaScript `trim` / `\s` (ASCII subset that
can occur in the device protocol). -/
def isWS (c : Char) : Bool :=
  c == ' ' || c == '\t' || c == '\n' || c == '\r'

/-- Model of JavaScript `String.prototype.trim`. -/
def trim (s : Str) : Str :=
  ((s.dropWhile isWS).reverse.dropWhile isWS).reverse

/-- Model of JavaScript `str.split(sep)` for a single-character
separator: always returns at least one (possibly empty) segment. -/
def splitOnChar (sep : Char) : Str → List Str
  | [] => [[]]
  | c :: rest =>
    match splitOnChar sep rest with
    | [] => [[]]
    | t :: ts => if c = sep then [] :: t :: ts else (c :: t) :: ts

/-- Auxiliary state-passing pass for `collapseWS`: the flag records
whether the previous character was whitespace. -/
def collapseAux : Bool → Str → Str
  | _, [] => []
  | prevWS, c :: rest =>
    if isWS c then
      if prevWS then collapseAux true rest
      else ' ' :: collapseAux true rest
    else c :: collapseAux false rest

/-- Model of JavaScript `str.replace(/\s+/g, ' ')`: every maximal run of
whitespace becomes a single space. -/
def collapseWS (s : Str) : Str := collapseAux false s

/-- Concatenation of a list of strings, JavaScript `array.join('')`. -/
def concatAll : List Str → Str
  | [] => []
  | l :: ls => l ++ concatAll ls

/-- JavaScript `array.join(sep)`. -/
def joinWith (sep : Str) : List Str → Str
  | [] => []
  | [l] => l
  | l :: ls => l ++ sep ++ joinWith sep ls

/-- First-match lookup in an association list, JavaScript property read
`obj[key]` for an object literal with distinct keys. -/
def lookupFirst (tbl : List (Str × Str)) (k : Str) : Option Str :=
  (tbl.find? (fun p => p.1 == k)).map (fun p => p.2)

/-- Last-match lookup in an association list: models a JavaScript object
built by successive assignments, where a later assignment to the same
key overwrites an earlier one. -/
def lookupLast (tbl : List (Str × Str)) (k : Str) : Option Str :=
  (tbl.reverse.find? (fun p => p.1 == k)).map (fun p => p.2)

/-- ASCII model of the character-wise effect of JavaScript
`String.prototype.toUpperCase`. -/
def toUpperChar (c : Char) : Char :=
  if 'a' ≤ c ∧ c ≤ 'z' then Char.ofNat (c.toNat - 32) else c

namespace Morse

/-- The `MORSE_CODE` lookup object of `web app v4.2/morse.js`:
letters, digits, the word separator `/`, and punctuation. -/
def MORSE_CODE : List (Str × Str) :=
  [ ((".-").toList, ("A").toList), (("-...").toList, ("B").toList),
    (("-.-.").toList, ("C").toList), (("-..").toList, ("D").toList),
    ((".").toList, ("E").toList), (("..-.").toList, ("F").toList),
    (("--.").toList, ("G").toList), (("....").toList, ("H").toList),
    (("..").toList, ("I").toList), ((".---").toList, ("J").toList),
    (("-.-").toList, ("K").toList), ((".-..").toList, ("L").toList),
    (("--").toList, ("M").toList), (("-.").toList, ("N").toList),
    (("---").toList, ("O").toList), ((".--.").toList, ("P").toList),
    (("--.-").toList, ("Q").toList), ((".-.").toList, ("R").toList),
    (("...").toList, ("S").toList), (("-").toList, ("T").toList),
    (("..-").toList, ("U").toList), (("...-").toList, ("V").toList),
    ((".--").toList, ("W").toList), (("-..-").toList, ("X").toList),
    (("-.--").toList, ("Y").toList), (("--..").toList, ("Z").toList),
    (("-----").toList, ("0").toList), ((".----").toList, ("1").toList),
    (("..---").toList, ("2").toList), (("...--").toList, ("3").toList),
    (("....-").toList, ("4").toList), ((".....").toList, ("5").toList),
    (("-....").toList, ("6").toList), (("--...").toList, ("7").toList),
    (("---..").toList, ("8").toList), (("----.").toList, ("9").toList),
    (("/").toList, (" ").toList), ((".-.-.-").toList, (".").toList),
    (("--..--").toList, (",").toList), (("..--..").toList, ("?").toList),
    ((".----.").toList, [Char.ofNat 39]), (("-.-.--").toList, ("!").toList),
    (("-..-.").toList, ("/").toList), (("-.--.").toList, ("(").toList),
    (("-.--.-").toList, (")").toList), ((".-...").toList, ("&").toList),
    (("---...").toList, (":").toList), (("-.-.-.").toList, (";").toList),
    (("-...-").toList, ("=").toList), ((".-.-.").toList, ("+").toList),
    (("-....-").toList, ("-").toList), (("..--.-").toList, ("_").toList),
    ((".-..-.").toList, ("\"").toList), (("...-..-").toList, ("$").toList),
    ((".--.-.").toList, ("@").toList) ]

/-- The reverse table `CHAR_TO_MORSE` of `morse.js`, built by iterating
over the keys of `MORSE_CODE` and assigning `CHAR_TO_MORSE[value] = key`
(a later assignment would overwrite an earlier one, hence the
last-match lookup below). -/
def CHAR_TO_MORSE : List (Str × Str) :=
  MORSE_CODE.map (fun p => (p.2, p.1))

/-- `decodeMorse` of `web app v4.2/morse.js` (lines 34-52). -/
def decodeMorse (morse : Str) : Str :=
  if morse = [] then []
  else if morse = ("/").toList ∨ morse = (" / ").toList ∨
      trim morse = ("/").toList then (" ").toList
  else
    let cleanMorse := collapseWS (trim morse)
    let letters := (splitOnChar ' ' cleanMorse).filter (fun l => l.length > 0)
    concatAll (letters.map (fun letter =>
      if letter = ("/").toList then (" ").toList
      else (lookupFirst MORSE_CODE letter).getD (("?").toList)))

/-- Null-tolerant entry point: `decodeMorse` returns `''` for any
non-string argument (`!morse || typeof morse !== 'string'`); `none`
models such a non-string (e.g. `null`) argument. -/
def decodeMorseJS : Option Str → Str
  | none => []
  | some s => decodeMorse s

/-- `encodeToMorse` of `web app v4.2/morse.js` (lines 59-66). -/
def encodeToMorse (text : Str) : Str :=
  if text = [] then []
  else
    joinWith ((" ").toList)
      (((text.map toUpperChar).map (fun ch =>
          if ch = ' ' then ("/").toList
          else (lookupLast CHAR_TO_MORSE [ch]).getD [])).filter
        (fun m => m.length > 0))

/-- Specification-side decoder, following the words of the claim: empty
input decodes to the empty string; any input whose trim equals `/`
decodes to a single space; otherwise trim, collapse internal whitespace
to single spaces, split on spaces, map each token through the table
(`/` to a space, absent tokens to `?`), concatenate with no
separator. -/
def decodeMorseSpec (morse : Str) : Str :=
  if morse = [] then []
  else if trim morse = ("/").toList then (" ").toList
  else
    concatAll
      (((splitOnChar ' ' (collapseWS (trim morse))).filter
          (fun l => l ≠ [])).map (fun letter =>
        if letter = ("/").toList then (" ").toList
        else (lookupFirst MORSE_CODE letter).getD (("?").toList)))

end Morse

namespace Comm

/-- The fallback `MORSE_CODE_MAP` object of
`web app v4.3/communication.js` (lines 1605-1613): letters and digits
only. -/
def MORSE_CODE_MAP : List (Str × Str) :=
  [ ((".-").toList, ("A").toList), (("-...").toList, ("B").toList),
    (("-.-.").toList, ("C").toList), (("-..").toList, ("D").toList),
    ((".").toList, ("E").toList), (("..-.").toList, ("F").toList),
    (("--.").toList, ("G").toList), (("....").toList, ("H").toList),
    (("..").toList, ("I").toList), ((".---").toList, ("J").toList),
    (("-.-").toList, ("K").toList), ((".-..").toList, ("L").toList),
    (("--").toList, ("M").toList), (("-.").toList, ("N").toList),
    (("---").toList, ("O").toList), ((".--.").toList, ("P").toList),
    (("--.-").toList, ("Q").toList), ((".-.").toList, ("R").toList),
    (("...").toList, ("S").toList), (("-").toList, ("T").toList),
    (("..-").toList, ("U").toList), (("...-").toList, ("V").toList),
    ((".--").toList, ("W").toList), (("-..-").toList, ("X").toList),
    (("-.--").toList, ("Y").toList), (("--..").toList, ("Z").toList),
    (("-----").toList, ("0").toList), ((".----").toList, ("1").toList),
    (("..---").toList, ("2").toList), (("...--").toList, ("3").toList),
    (("....-").toList, ("4").toList), ((".....").toList, ("5").toList),
    (("-....").toList, ("6").toList), (("--...").toList, ("7").toList),
    (("---..").toList, ("8").toList), (("----.").toList, ("9").toList) ]

/-- Character class `[.\-\s/]` used by `isValidMorse` and by the
fallback extraction regex of `handleDataLine`. -/
def isMorseClassChar (c : Char) : Bool :=
  c == '.' || c == '-' || isWS c || c == '/'

/-- `isValidMorse` of `communication.js` (lines 1615-1618):
`/^[.\-\s/]+$/.test(morse)` with a falsy guard for the empty string. -/
def isValidMorse (morse : Str) : Bool :=
  !morse.isEmpty && morse.all isMorseClassChar

/-- `decodeMorse` of `communication.js` (lines 1620-1634); same
algorithm as the v4.2 codec but over the reduced `MORSE_CODE_MAP`
table (the explicit `letter === '/'` check supplies the word gap). -/
def decodeMorse (morse : Str) : Str :=
  if morse = [] then []
  else if morse = ("/").toList ∨ morse = (" / ").toList ∨
      trim morse = ("/").toList then (" ").toList
  else
    let cleanMorse := collapseWS (trim morse)
    let letters := (splitOnChar ' ' cleanMorse).filter (fun l => l.length > 0)
    concatAll (letters.map (fun letter =>
      if letter = ("/").toList then (" ").toList
      else (lookupFirst MORSE_CODE_MAP letter).getD (("?").toList)))

/-- Decoder session state of `communication.js`: the module-level
variables `decodedText` and `currentBuilding` (both initialised to
`''`), together with a count of `saveCurrentMessage(true)` auto-save
invocations (the save callback persists a copy of the text and never
mutates the decoder state). -/
structure DecoderState where
  decodedText : Str
  currentBuilding : Str
  saveCount : Nat

/-- Initial decoder state: `currentBuilding = ''`, `decodedText = ''`. -/
def initState : DecoderState := ⟨[], [], 0⟩

/-- Model of `line.match(/([.\-\s/]+)/)`: the match starts at the first
character of the class and extends greedily, so the result is the first
maximal contiguous run of class characters (or `none` when no class
character occurs). -/
def firstRun : Str → Option Str
  | [] => none
  | c :: rest =>
    if isMorseClassChar c then some (c :: rest.takeWhile isMorseClassChar)
    else firstRun rest

/-- The branch dispatch of `handleDataLine` (`communication.js`
lines 462-514): classify the line and update `decodedText` /
`currentBuilding`.  Display-callback calls (`updateBuilding`,
`updateDecoded`, `liveMorseEl`) have no effect on the decoder state and
are not modelled. -/
def handleDataLineCore (s : DecoderState) (line : Str) : DecoderState :=
  if line = ("/").toList ∨ line = ("SPACE").toList ∨
      line = ("WORD_END").toList then
    -- word separator: finalize any building pattern, then a space
    let s' :=
      if s.currentBuilding ≠ [] then
        let decoded := decodeMorse s.currentBuilding
        if decoded ≠ [] ∧ decoded ≠ ("?").toList then
          { s with decodedText := s.decodedText ++ decoded }
        else s
      else s
    { s' with decodedText := s'.decodedText ++ (" ").toList,
              currentBuilding := [] }
  else if line = ("|").toList ∨ line = ("LETTER").toList ∨
      line = ("LETTER_END").toList then
    -- letter separator: finalize any building pattern, no space
    let s' :=
      if s.currentBuilding ≠ [] then
        let decoded := decodeMorse s.currentBuilding
        if decoded ≠ [] ∧ decoded ≠ ("?").toList then
          { s with decodedText := s.decodedText ++ decoded }
        else s
      else s
    { s' with currentBuilding := [] }
  else if isValidMorse line then
    -- complete Morse sequence: decode now, retain as building
    let decoded := decodeMorse line
    let s' :=
      if decoded ≠ [] ∧ decoded ≠ ("?").toList then
        { s with decodedText := s.decodedText ++ decoded }
      else s
    { s' with currentBuilding := line }
  else if line ≠ [] ∧ ∀ c ∈ line, c = '.' ∨ c = '-' then
    -- `line.match(/^[.\-]+$/)`: building pattern
    { s with currentBuilding := line }
  else if line.take 6 = ("BLINK:").toList ∨
      line.take 6 = ("MORSE:").toList then
    -- tagged payload: `line.split(':')[1]?.trim()`
    let morseData := trim ((splitOnChar ':' line).getD 1 [])
    if morseData ≠ [] then { s with currentBuilding := morseData }
    else s
  else
    -- raw data: best-effort extraction of an embedded pattern
    if line.contains '.' = true ∨ line.contains '-' = true then
      match firstRun line with
      | some run => { s with currentBuilding := trim run }
      | none => s
    else s

/-- `handleDataLine` of `communication.js` (lines 452-525): early
return for an empty line, the branch dispatch, then the auto-save check
(`settings.autoSave && decodedText.length > 0 && decodedText.length %
10 === 0` fires `saveCurrentMessage(true)`, counted in `saveCount`).
The `autoSave` flag models `getSettings().autoSave`. -/
def handleDataLine (autoSave : Bool) (s : DecoderState) (line : Str) :
    DecoderState :=
  if line = [] then s
  else
    let s1 := handleDataLineCore s line
    if autoSave = true ∧ 0 < s1.decodedText.length ∧
        s1.decodedText.length % 10 = 0 then
      { s1 with saveCount := s1.saveCount + 1 }
    else s1

/-- Feeding a sequence of lines through `handleDataLine`. -/
def processLines (autoSave : Bool) (s : DecoderState) (lines : List Str) :
    DecoderState :=
  lines.foldl (handleDataLine autoSave) s

/-- Model of `manualText.split(/\s+/)` for already-trimmed input: the
maximal non-whitespace chunks. -/
def splitWS (s : Str) : List Str :=
  (splitOnChar ' ' (collapseWS s)).filter (fun t => t ≠ [])

/-- `addManualInput` of `communication.js` (lines 1405-1431); the
`manualTextRaw` argument models `manualBoxEl.textContent`. -/
def addManualInput (s : DecoderState) (manualTextRaw : Str) : DecoderState :=
  let manualText := trim manualTextRaw
  if manualText = [] then s
  else
    let tokens := splitWS manualText
    let addedText := tokens.foldl (fun acc token =>
      if token = ("/").toList ∨ token = ("SPACE").toList then
        acc ++ (" ").toList
      else if isValidMorse token then acc ++ decodeMorse token
      else acc) []
    if addedText ≠ [] then { s with decodedText := s.decodedText ++ addedText }
    else s

/-- Lines forwarded to `handleDataLine` by one Bluetooth notification
payload (`handleBluetoothData`, lines 330-345): split on `\n`, trim,
drop empties. -/
def btOf (data : Str) : List Str :=
  ((splitOnChar '\n' data).map trim).filter (fun l => l ≠ [])

/-- Lines forwarded by the Bluetooth adapter for a sequence of
notification payloads: each payload is processed independently. -/
def bluetoothLines : List Str → List Str
  | [] => []
  | c :: cs => btOf c ++ bluetoothLines cs

/-- One `transform` step of `LineBreakTransformer` (lines 1539-1550):
append the chunk to the buffer, split on `\n`, keep the last segment as
the new buffer, enqueue the other segments trimmed and non-empty.
Returns the new buffer and the enqueued lines. -/
def lbtTransform (buf chunk : Str) : Str × List Str :=
  let chunks := buf ++ chunk
  let lines := splitOnChar '\n' chunks
  let newBuf := (lines.getLast?).getD []
  let emitted := ((lines.dropLast).map trim).filter (fun l => l ≠ [])
  (newBuf, emitted)

/-- Running `LineBreakTransformer.transform` over a chunk sequence. -/
def lbtRun : Str → List Str → Str × List Str
  | buf, [] => (buf, [])
  | buf, ch :: rest =>
    let step := lbtTransform buf ch
    let next := lbtRun step.1 rest
    (next.1, step.2 ++ next.2)

/-- Lines delivered to `handleDataLine` by the serial path for a chunk
sequence: the transformer output followed by the `flush` of the
remaining buffer on stream close (lines 1552-1557). -/
def serialLines (chunks : List Str) : List Str :=
  let run := lbtRun [] chunks
  run.2 ++ (if trim run.1 ≠ [] then [trim run.1] else [])

end Comm

/-- C1, counterexample: feeding `[".", "/"]` from the empty state does
not yield `"E "` — the pattern retained in `currentBuilding` after the
complete valid Morse line `"."` is decoded a second time by the
word-break line, so the result is `"EE "`; likewise
`["-", "|", ".", "/"]` does not yield `"TE "`. -/
theorem C1_counterexample :
    (Comm.processLines false Comm.initState
        [((".").toList), (("/").toList)]).decodedText ≠ ("E ").toList ∧
    (Comm.processLines false Comm.initState
        [(("-").toList), (("|").toList), ((".").toList),
         (("/").toList)]).decodedText ≠ ("TE ").toList := by
  decide

/-- C1, amended: the `currentBuilding` value retained after a complete
valid Morse line is re-decoded by a subsequent word-break or
letter-break line, so `[".", "/"]` yields `decodedText = "EE "` and
`["-", "|", ".", "/"]` yields `decodedText = "TTEE "`. -/
theorem C1_amended :
    (Comm.processLines false Comm.initState
        [((".").toList), (("/").toList)]).decodedText = ("EE ").toList ∧
    (Comm.processLines false Comm.initState
        [(("-").toList), (("|").toList), ((".").toList),
         (("/").toList)]).decodedText = ("TTEE ").toList := by
  decide

/-- C2, counterexample: with auto-save enabled, ten `"."` lines bring
`decodedText` to length 10 and fire the auto-save once; one further
`"BLINK:x"` line leaves the length at 10 yet fires the auto-save a
second time — so the callback does fire again on a later line while the
length remains at a multiple of 10. -/
theorem C2_counterexample :
    (Comm.processLines true Comm.initState
        (List.replicate 10 ((".").toList))).saveCount = 1 ∧
    (Comm.processLines true Comm.initState
        (List.replicate 10 ((".").toList))).decodedText.length = 10 ∧
    (Comm.processLines true Comm.initState
        (List.replicate 10 ((".").toList) ++
          [("BLINK:x").toList])).saveCount = 2 ∧
    (Comm.processLines true Comm.initState
        (List.replicate 10 ((".").toList) ++
          [("BLINK:x").toList])).decodedText.length = 10 := by
  decide

/-- C8, counterexample: submitting the manual-entry text `".- / -..."`
does not append `"A S"` — the token `-...` decodes to `B`, so the
appended text is `"A B"`. -/
theorem C8_counterexample :
    (Comm.addManualInput Comm.initState
        ((".- / -...").toList)).decodedText ≠ ("A S").toList := by
  decide

/-- C8, amended: submitting the manual-entry text `".- / -..."` through
`addManualInput` appends exactly `"A B"` to `decodedText` — each
whitespace-separated token independently validated and decoded, the `/`
token contributing the word gap as a single space — and leaves
`currentBuilding` (and the save counter) unchanged. -/
theorem C8_amended (s : Comm.DecoderState) :
    (Comm.addManualInput s ((".- / -...").toList)).decodedText =
        s.decodedText ++ ("A B").toList ∧
    (Comm.addManualInput s ((".- / -...").toList)).currentBuilding =
        s.currentBuilding ∧
    (Comm.addManualInput s ((".- / -...").toList)).saveCount =
        s.saveCount :=
  ⟨rfl, rfl, rfl⟩

/-- C10: the `?`-suppression guard of `handleDataLine` blocks a decode
result only when it is exactly `"?"`: the complete valid line
`".- ......"` decodes to `"A?"` and is appended to `decodedText`
including the `?`, and `addManualInput` appends per-token results with
no `?` guard at all — so states whose `decodedText` contains `?` are
reachable. -/
theorem C10_question_marks :
    Comm.decodeMorse ((".- ......").toList) = ("A?").toList ∧
    (Comm.processLines false Comm.initState
        [((".- ......").toList)]).decodedText = ("A?").toList ∧
    (Comm.addManualInput Comm.initState
        (("......").toList)).decodedText = ("?").toList ∧
    ("A?").toList ≠ ("?").toList := by
  decide

/-- C5: for every entry `(k, v)` of the Morse lookup table, the
single-character value `v` round-trips: `encodeToMorse` maps it back to
a Morse token (uppercasing, space to `/`, dropping unmapped characters)
and `decodeMorse` recovers exactly `v`. -/
theorem C5_roundtrip (k v : Str) (h : (k, v) ∈ Morse.MORSE_CODE) :
    Morse.decodeMorse (Morse.encodeToMorse v) = v := by
  have H : ∀ p ∈ Morse.MORSE_CODE,
      Morse.decodeMorse (Morse.encodeToMorse p.2) = p.2 := by decide
  exact H (k, v) h

/-- C5, witness: the space character (table entry `("/", " ")`)
round-trips through `encodeToMorse` and `decodeMorse`. -/
theorem C5_witness :
    Morse.decodeMorse (Morse.encodeToMorse ((" ").toList)) = (" ").toList :=
  C5_roundtrip (("/").toList) ((" ").toList) (by decide)

/-- Helper: the two token filters agree — a token has positive length
iff it is non-empty. -/
theorem filter_pos_eq_filter_ne (ls : List Str) :
    ls.filter (fun l => l.length > 0) = ls.filter (fun l => l ≠ []) := by
  apply List.filter_congr
  intro x _
  cases x <;> simp

/-- C4: `decodeMorse` returns the empty string for empty or non-string
input; a single space for any input whose trim equals `/`; and in
general agrees with the specification-side decoder that trims,
collapses internal whitespace, splits on spaces, maps each token
through the table (`/` to a space, unknown tokens to `?`), and
concatenates.  In particular `decodeMorse "/" = " "`,
`decodeMorse " / " = " "`, `decodeMorse "" = ""`, and a non-string
(null) argument decodes to `""`. -/
theorem C4_decode :
    Morse.decodeMorseJS none = [] ∧
    Morse.decodeMorse [] = [] ∧
    (∀ s : Str, trim s = ("/").toList →
        Morse.decodeMorse s = (" ").toList) ∧
    Morse.decodeMorse (("/").toList) = (" ").toList ∧
    Morse.decodeMorse ((" / ").toList) = (" ").toList ∧
    (∀ s : Str, Morse.decodeMorse s = Morse.decodeMorseSpec s) := by
  refine ⟨rfl, rfl, ?_, by decide, by decide, ?_⟩
  · intro s h
    by_cases h0 : s = []
    · subst h0; exact absurd h (by decide)
    · simp [Morse.decodeMorse, h0, h]
  · intro s
    by_cases h0 : s = []
    · simp [Morse.decodeMorse, Morse.decodeMorseSpec, h0]
    · by_cases h1 : trim s = ("/").toList
      · simp [Morse.decodeMorse, Morse.decodeMorseSpec, h0, h1]
      · have hs1 : s ≠ ("/").toList := by rintro rfl; exact h1 (by decide)
        have hs2 : s ≠ (" / ").toList := by rintro rfl; exact h1 (by decide)
        simp only [Morse.decodeMorse, Morse.decodeMorseSpec, if_neg h0,
          if_neg h1]
        rw [if_neg]
        · rw [filter_pos_eq_filter_ne]
        · rintro (h | h | h) <;> [exact hs1 h; exact hs2 h; exact h1 h]

/-- C4, witness: an input whose trim equals `/` (here `"  /"`) decodes
to a single space, via the universally quantified part of `C4_decode`. -/
theorem C4_witness :
    Morse.decodeMorse (("  /").toList) = (" ").toList :=
  C4_decode.2.2.1 (("  /").toList) (by decide)

/-- C9: a line that matches none of the recognized forms — not a word
or letter separator, not valid Morse, not a pure dot/dash pattern, not
a `BLINK:`/`MORSE:` tagged payload — and that contains no `.` and no
`-` leaves both `decodedText` and `currentBuilding` exactly
unchanged. -/
theorem C9_frame (a : Bool) (s : Comm.DecoderState) (line : Str)
    (h1 : ¬(line = ("/").toList ∨ line = ("SPACE").toList ∨
        line = ("WORD_END").toList))
    (h2 : ¬(line = ("|").toList ∨ line = ("LETTER").toList ∨
        line = ("LETTER_END").toList))
    (h3 : Comm.isValidMorse line = false)
    (h4 : ¬(line ≠ [] ∧ ∀ c ∈ line, c = '.' ∨ c = '-'))
    (h5 : ¬(line.take 6 = ("BLINK:").toList ∨
        line.take 6 = ("MORSE:").toList))
    (h6 : line.contains '.' = false)
    (h7 : line.contains '-' = false) :
    (Comm.handleDataLine a s line).decodedText = s.decodedText ∧
    (Comm.handleDataLine a s line).currentBuilding = s.currentBuilding := by
  unfold Comm.handleDataLine Comm.handleDataLineCore
  by_cases h0 : line = []
  · simp [h0]
  · rw [if_neg h0]
    simp only [if_neg h1, if_neg h2, if_neg (by simp [h3] :
        ¬ Comm.isValidMorse line = true), if_neg h4, if_neg h5,
      if_neg (by rw [h6, h7]; simp :
        ¬(line.contains '.' = true ∨ line.contains '-' = true))]
    split <;> exact ⟨rfl, rfl⟩

/-- C9, witness: the device acknowledgement line `"PONG"` (no dots or
dashes, no recognized form) leaves the initial decoder state's
`decodedText` and `currentBuilding` unchanged. -/
theorem C9_witness :
    (Comm.handleDataLine false Comm.initState
        (("PONG").toList)).decodedText = Comm.initState.decodedText ∧
    (Comm.handleDataLine false Comm.initState
        (("PONG").toList)).currentBuilding =
      Comm.initState.currentBuilding :=
  C9_frame false Comm.initState (("PONG").toList) (by decide) (by decide)
    (by decide) (by decide) (by decide) (by decide) (by decide)

/-- Helper: `splitOnChar` always returns at least one segment. -/
theorem splitOnChar_ne_nil (sep : Char) (s : Str) :
    splitOnChar sep s ≠ [] := by
  induction s with
  | nil => simp [splitOnChar]
  | cons c rest ih =>
    obtain ⟨t, ts, hts⟩ := List.exists_cons_of_ne_nil ih
    simp only [splitOnChar, hts]
    split <;> simp

/-- Helper: the first segment of `splitOnChar` is the longest
separator-free initial segment. -/
theorem splitOnChar_getD_zero (sep : Char) (s : Str) :
    (splitOnChar sep s).getD 0 [] = s.takeWhile (fun c => c != sep) := by
  induction s with
  | nil => simp [splitOnChar]
  | cons c rest ih =>
    obtain ⟨t, ts, hts⟩ := List.exists_cons_of_ne_nil (splitOnChar_ne_nil sep rest)
    rw [hts] at ih
    simp only [splitOnChar, hts]
    by_cases hc : c = sep
    · subst hc
      simp [List.takeWhile]
    · have hb : (c != sep) = true := by simp [bne_iff_ne, hc]
      simp only [if_neg hc, List.takeWhile, hb]
      simp only [List.getD] at ih ⊢
      simp at ih ⊢
      exact ih

/-- Helper: splitting an appended string whose first part is
separator-free peels that part off as the first segment. -/
theorem splitOnChar_append_sep (sep : Char) (xs ys : Str)
    (h : ∀ c ∈ xs, c ≠ sep) :
    splitOnChar sep (xs ++ sep :: ys) = xs :: splitOnChar sep ys := by
  induction xs with
  | nil =>
    obtain ⟨t, ts, hts⟩ := List.exists_cons_of_ne_nil (splitOnChar_ne_nil sep ys)
    simp only [List.nil_append, splitOnChar, hts]
    simp
  | cons c xs ih =>
    have hc : c ≠ sep := h c (by simp)
    have ih' := ih (fun d hd => h d (by simp [hd]))
    simp only [List.cons_append, splitOnChar, List.append_eq]
    rw [ih']
    simp [hc]

/-- C6, counterexample: for the line `"BLINK:.:-"` — whose payload
contains a further colon — the interpreter sets `currentBuilding` to
`"."` (the segment between the first and second colon, from
`line.split(':')[1]`), not to `".:-"` (everything after the first
colon) as claimed. -/
theorem C6_counterexample :
    (Comm.handleDataLine false Comm.initState
        (("BLINK:.:-").toList)).currentBuilding = (".").toList ∧
    trim ((("BLINK:.:-").toList.dropWhile (fun c => c != ':')).drop 1) =
      (".:-").toList ∧
    ((".").toList : Str) ≠ (".:-").toList := by
  decide

/-- C6, amended: for every line of the form `BLINK:<rest>` or
`MORSE:<rest>`, the interpreter takes the segment of `<rest>` before
its first colon (i.e. the segment of the line between its first and
second colon, from `split(':')[1]`), trims it, and — if the result is
non-empty — sets it as the new `currentBuilding`, with no decode and no
change to `decodedText`; the earlier branches never fire for such
lines. -/
theorem C6_amended (a : Bool) (s : Comm.DecoderState) (tag rest : Str)
    (htag : tag = ("BLINK:").toList ∨ tag = ("MORSE:").toList) :
    (Comm.handleDataLine a s (tag ++ rest)).decodedText = s.decodedText ∧
    (Comm.handleDataLine a s (tag ++ rest)).currentBuilding =
      (if trim (rest.takeWhile (fun c => c != ':')) ≠ []
       then trim (rest.takeWhile (fun c => c != ':'))
       else s.currentBuilding) := by
  have eB : ("BLINK:").toList = (['B', 'L', 'I', 'N', 'K', ':'] : Str) := rfl
  have eM : ("MORSE:").toList = (['M', 'O', 'R', 'S', 'E', ':'] : Str) := rfl
  rcases htag with rfl | rfl
  · unfold Comm.handleDataLine Comm.handleDataLineCore
    rw [eB]
    rw [if_neg (by simp : ¬((['B', 'L', 'I', 'N', 'K', ':'] : Str) ++ rest = []))]
    rw [if_neg (by simp : ¬((['B', 'L', 'I', 'N', 'K', ':'] : Str) ++ rest =
          ("/").toList ∨ (['B', 'L', 'I', 'N', 'K', ':'] : Str) ++ rest =
          ("SPACE").toList ∨ (['B', 'L', 'I', 'N', 'K', ':'] : Str) ++ rest =
          ("WORD_END").toList))]
    rw [if_neg (by simp : ¬((['B', 'L', 'I', 'N', 'K', ':'] : Str) ++ rest =
          ("|").toList ∨ (['B', 'L', 'I', 'N', 'K', ':'] : Str) ++ rest =
          ("LETTER").toList ∨ (['B', 'L', 'I', 'N', 'K', ':'] : Str) ++ rest =
          ("LETTER_END").toList))]
    rw [if_neg (by simp [Comm.isValidMorse, Comm.isMorseClassChar, isWS] :
          ¬(Comm.isValidMorse ((['B', 'L', 'I', 'N', 'K', ':'] : Str) ++ rest) = true))]
    rw [if_neg (by
          rintro ⟨-, hall⟩
          have hB := hall 'B' (by simp)
          simp at hB :
          ¬((['B', 'L', 'I', 'N', 'K', ':'] : Str) ++ rest ≠ [] ∧
            ∀ c ∈ (['B', 'L', 'I', 'N', 'K', ':'] : Str) ++ rest, c = '.' ∨ c = '-'))]
    rw [if_pos (show (List.take 6 ((['B', 'L', 'I', 'N', 'K', ':'] : Str) ++ rest) =
          (['B', 'L', 'I', 'N', 'K', ':'] : Str) ∨
          List.take 6 ((['B', 'L', 'I', 'N', 'K', ':'] : Str) ++ rest) =
          ("MORSE:").toList) from Or.inl rfl)]
    rw [show ((['B', 'L', 'I', 'N', 'K', ':'] : Str) ++ rest) =
          (['B', 'L', 'I', 'N', 'K'] : Str) ++ ':' :: rest from rfl]
    rw [splitOnChar_append_sep ':' (['B', 'L', 'I', 'N', 'K']) rest (by decide)]
    rw [show ((['B', 'L', 'I', 'N', 'K'] :: splitOnChar ':' rest).getD 1 []) =
          (splitOnChar ':' rest).getD 0 [] from rfl]
    rw [splitOnChar_getD_zero]
    by_cases hm : trim (rest.takeWhile (fun c => c != ':')) = []
    · rw [if_neg (show ¬(trim (List.takeWhile (fun c => c != ':') rest) ≠ [])
            from by simp [hm])]
      dsimp only
      split <;> refine ⟨rfl, ?_⟩ <;> simp [hm]
    · rw [if_pos hm]
      dsimp only
      split <;> refine ⟨rfl, ?_⟩ <;> simp [hm]
  · unfold Comm.handleDataLine Comm.handleDataLineCore
    rw [eM]
    rw [if_neg (by simp : ¬((['M', 'O', 'R', 'S', 'E', ':'] : Str) ++ rest = []))]
    rw [if_neg (by simp : ¬((['M', 'O', 'R', 'S', 'E', ':'] : Str) ++ rest =
          ("/").toList ∨ (['M', 'O', 'R', 'S', 'E', ':'] : Str) ++ rest =
          ("SPACE").toList ∨ (['M', 'O', 'R', 'S', 'E', ':'] : Str) ++ rest =
          ("WORD_END").toList))]
    rw [if_neg (by simp : ¬((['M', 'O', 'R', 'S', 'E', ':'] : Str) ++ rest =
          ("|").toList ∨ (['M', 'O', 'R', 'S', 'E', ':'] : Str) ++ rest =
          ("LETTER").toList ∨ (['M', 'O', 'R', 'S', 'E', ':'] : Str) ++ rest =
          ("LETTER_END").toList))]
    rw [if_neg (by simp [Comm.isValidMorse, Comm.isMorseClassChar, isWS] :
          ¬(Comm.isValidMorse ((['M', 'O', 'R', 'S', 'E', ':'] : Str) ++ rest) = true))]
    rw [if_neg (by
          rintro ⟨-, hall⟩
          have hM := hall 'M' (by simp)
          simp at hM :
          ¬((['M', 'O', 'R', 'S', 'E', ':'] : Str) ++ rest ≠ [] ∧
            ∀ c ∈ (['M', 'O', 'R', 'S', 'E', ':'] : Str) ++ rest, c = '.' ∨ c = '-'))]
    rw [if_pos (show (List.take 6 ((['M', 'O', 'R', 'S', 'E', ':'] : Str) ++ rest) =
          ("BLINK:").toList ∨
          List.take 6 ((['M', 'O', 'R', 'S', 'E', ':'] : Str) ++ rest) =
          (['M', 'O', 'R', 'S', 'E', ':'] : Str)) from Or.inr rfl)]
    rw [show ((['M', 'O', 'R', 'S', 'E', ':'] : Str) ++ rest) =
          (['M', 'O', 'R', 'S', 'E'] : Str) ++ ':' :: rest from rfl]
    rw [splitOnChar_append_sep ':' (['M', 'O', 'R', 'S', 'E']) rest (by decide)]
    rw [show ((['M', 'O', 'R', 'S', 'E'] :: splitOnChar ':' rest).getD 1 []) =
          (splitOnChar ':' rest).getD 0 [] from rfl]
    rw [splitOnChar_getD_zero]
    by_cases hm : trim (rest.takeWhile (fun c => c != ':')) = []
    · rw [if_neg (show ¬(trim (List.takeWhile (fun c => c != ':') rest) ≠ [])
            from by simp [hm])]
      dsimp only
      split <;> refine ⟨rfl, ?_⟩ <;> simp [hm]
    · rw [if_pos hm]
      dsimp only
      split <;> refine ⟨rfl, ?_⟩ <;> simp [hm]

/-- C6, witness: the line `"MORSE:-- .- "` sets `currentBuilding` to
the trimmed payload `"-- .-"` and leaves `decodedText` unchanged. -/
theorem C6_witness :
    (Comm.handleDataLine false Comm.initState
        (("MORSE:").toList ++ ("-- .- ").toList)).decodedText =
      Comm.initState.decodedText ∧
    (Comm.handleDataLine false Comm.initState
        (("MORSE:").toList ++ ("-- .- ").toList)).currentBuilding =
      (if trim ((("-- .- ").toList).takeWhile (fun c => c != ':')) ≠ []
       then trim ((("-- .- ").toList).takeWhile (fun c => c != ':'))
       else Comm.initState.currentBuilding) :=
  C6_amended false Comm.initState (("MORSE:").toList) (("-- .- ").toList)
    (Or.inr rfl)

/-- Generic splitter on a character predicate: segments of `s` between
characters satisfying `p` (used to describe the maximal runs of the
fallback-extraction character class). -/
def splitOnP (p : Char → Bool) : Str → List Str
  | [] => [[]]
  | c :: rest =>
    match splitOnP p rest with
    | [] => [[]]
    | t :: ts => if p c then [] :: t :: ts else (c :: t) :: ts

/-- The maximal contiguous runs of characters from the class
`[.\-\s/]` occurring in a line (specification-side description of the
fallback extraction). -/
def runsOf (s : Str) : List Str :=
  (splitOnP (fun c => !Comm.isMorseClassChar c) s).filter (fun r => r ≠ [])

/-- The longest maximal contiguous run of class characters in a line
(the claim's reading of the fallback extraction). -/
def longestRun (s : Str) : Str :=
  (runsOf s).foldl (fun best r => if best.length < r.length then r else best) []

/-- Helper: `splitOnP` always returns at least one segment. -/
theorem splitOnP_ne_nil (p : Char → Bool) (s : Str) : splitOnP p s ≠ [] := by
  induction s with
  | nil => simp [splitOnP]
  | cons c rest ih =>
    obtain ⟨t, ts, hts⟩ := List.exists_cons_of_ne_nil ih
    simp only [splitOnP, hts]
    split <;> simp

/-- Helper: the first segment of `splitOnP` is the longest initial
segment avoiding the predicate. -/
theorem splitOnP_getD_zero (p : Char → Bool) (s : Str) :
    (splitOnP p s).getD 0 [] = s.takeWhile (fun c => !(p c)) := by
  induction s with
  | nil => simp [splitOnP]
  | cons c rest ih =>
    obtain ⟨t, ts, hts⟩ := List.exists_cons_of_ne_nil (splitOnP_ne_nil p rest)
    rw [hts] at ih
    simp only [splitOnP, hts]
    by_cases hc : p c = true
    · simp [hc, List.takeWhile]
    · simp only [Bool.not_eq_true] at hc
      simp only [hc, if_false, List.takeWhile]
      simp only [List.getD] at ih ⊢
      simp at ih ⊢
      exact ih

/-- Helper: the source's regex search `line.match(/([.\-\s/]+)/)`
returns exactly the first maximal class run of the line. -/
theorem firstRun_eq_head (s : Str) :
    Comm.firstRun s = (runsOf s).head? := by
  induction s with
  | nil => rfl
  | cons c rest ih =>
    obtain ⟨t, ts, hts⟩ :=
      List.exists_cons_of_ne_nil
        (splitOnP_ne_nil (fun c => !Comm.isMorseClassChar c) rest)
    simp only [Comm.firstRun, runsOf, splitOnP, hts]
    by_cases hc : Comm.isMorseClassChar c = true
    · rw [if_pos hc, if_neg (by simp [hc])]
      have ht : t = rest.takeWhile Comm.isMorseClassChar := by
        have hz :=
          splitOnP_getD_zero (fun c => !Comm.isMorseClassChar c) rest
        rw [hts] at hz
        simp only [List.getD, List.get?, Option.getD_some] at hz
        simpa [Bool.not_not] using hz
      simp [ht]
    · rw [if_neg hc, if_pos (by simp [hc])]
      rw [ih]
      simp [runsOf, hts]

/-- Helper: a line containing some class character has a first run. -/
theorem firstRun_isSome (line : Str)
    (h : ∃ c ∈ line, Comm.isMorseClassChar c = true) :
    ∃ r, Comm.firstRun line = some r := by
  induction line with
  | nil => obtain ⟨c, hc, -⟩ := h; cases hc
  | cons c rest ih =>
    by_cases hc : Comm.isMorseClassChar c = true
    · exact ⟨c :: rest.takeWhile Comm.isMorseClassChar,
        by simp [Comm.firstRun, hc]⟩
    · obtain ⟨d, hd, hdc⟩ := h
      rcases List.mem_cons.mp hd with rfl | hd'
      · exact absurd hdc hc
      · obtain ⟨r, hr⟩ := ih ⟨d, hd', hdc⟩
        exact ⟨r, by simp [Comm.firstRun, hc, hr]⟩

/-- C7, counterexample: the fallback line `"a.b---"` (no recognized
form, contains dots and dashes) sets `currentBuilding` to `"."` — the
first maximal class run — although the longest contiguous class run of
the line is `"---"`. -/
theorem C7_counterexample :
    (Comm.handleDataLine false Comm.initState
        (("a.b---").toList)).currentBuilding = (".").toList ∧
    longestRun (("a.b---").toList) = ("---").toList ∧
    ((".").toList : Str) ≠ ("---").toList := by
  decide

/-- C7, amended: for every line reaching the fallback branch that
contains at least one `.` or `-`, the interpreter sets
`currentBuilding` to the trim of the FIRST maximal contiguous run of
characters from the class `[.\-\s/]` occurring in the line (not the
longest), and leaves `decodedText` unchanged. -/
theorem C7_amended (a : Bool) (s : Comm.DecoderState) (line : Str)
    (h1 : ¬(line = ("/").toList ∨ line = ("SPACE").toList ∨
        line = ("WORD_END").toList))
    (h2 : ¬(line = ("|").toList ∨ line = ("LETTER").toList ∨
        line = ("LETTER_END").toList))
    (h3 : Comm.isValidMorse line = false)
    (h4 : ¬(line ≠ [] ∧ ∀ c ∈ line, c = '.' ∨ c = '-'))
    (h5 : ¬(line.take 6 = ("BLINK:").toList ∨
        line.take 6 = ("MORSE:").toList))
    (h6 : line.contains '.' = true ∨ line.contains '-' = true) :
    (Comm.handleDataLine a s line).decodedText = s.decodedText ∧
    (Comm.handleDataLine a s line).currentBuilding =
      trim ((runsOf line).headD []) := by
  have hclass : ∃ c ∈ line, Comm.isMorseClassChar c = true := by
    rcases h6 with h | h
    · exact ⟨'.', by simpa using h, by decide⟩
    · exact ⟨'-', by simpa using h, by decide⟩
  have h0 : line ≠ [] := by
    rintro rfl
    obtain ⟨c, hc, -⟩ := hclass
    cases hc
  obtain ⟨r, hr⟩ := firstRun_isSome line hclass
  have hhead : (runsOf line).headD [] = r := by
    have := firstRun_eq_head line
    rw [hr] at this
    rw [List.headD_eq_head?_getD, ← this]
    rfl
  unfold Comm.handleDataLine Comm.handleDataLineCore
  rw [if_neg h0, if_neg h1, if_neg h2,
    if_neg (show ¬(Comm.isValidMorse line = true) from by simp [h3]),
    if_neg h4, if_neg h5, if_pos h6, hr, hhead]
  dsimp only
  split <;> exact ⟨rfl, rfl⟩

/-- C7, witness: the raw line `"a.b---"` leaves `decodedText`
unchanged and sets `currentBuilding` to the trimmed first maximal
class run. -/
theorem C7_witness :
    (Comm.handleDataLine false Comm.initState
        (("a.b---").toList)).decodedText = Comm.initState.decodedText ∧
    (Comm.handleDataLine false Comm.initState
        (("a.b---").toList)).currentBuilding =
      trim ((runsOf (("a.b---").toList)).headD []) :=
  C7_amended false Comm.initState (("a.b---").toList) (by decide)
    (by decide) (by decide) (by decide) (by decide) (by decide)

/-- Number of processed lines after which `decodedText` is non-empty
with length a multiple of 10 (the states in which the code's auto-save
check fires), along a run of `handleDataLine` with auto-save enabled. -/
def boundaryHits : Comm.DecoderState → List Str → Nat
  | _, [] => 0
  | s, l :: ls =>
    let s' := Comm.handleDataLine true s l
    (if 0 < s'.decodedText.length ∧ s'.decodedText.length % 10 = 0
     then 1 else 0) + boundaryHits s' ls

/-- Helper: the branch dispatch never changes the save counter. -/
theorem handleDataLineCore_saveCount (s : Comm.DecoderState) (l : Str) :
    (Comm.handleDataLineCore s l).saveCount = s.saveCount := by
  unfold Comm.handleDataLineCore
  dsimp only
  repeat' split <;> try rfl

/-- Helper: `handleDataLine` on a non-empty line is the branch dispatch
followed by the auto-save check. -/
theorem handleDataLine_eq (a : Bool) (s : Comm.DecoderState) (l : Str)
    (hl : l ≠ []) :
    Comm.handleDataLine a s l =
      (if a = true ∧
          0 < (Comm.handleDataLineCore s l).decodedText.length ∧
          (Comm.handleDataLineCore s l).decodedText.length % 10 = 0 then
        { Comm.handleDataLineCore s l with
            saveCount := (Comm.handleDataLineCore s l).saveCount + 1 }
      else Comm.handleDataLineCore s l) := by
  unfold Comm.handleDataLine
  rw [if_neg hl]

/-- Helper: the auto-save check does not alter `decodedText`. -/
theorem handleDataLine_decodedText (a : Bool) (s : Comm.DecoderState)
    (l : Str) (hl : l ≠ []) :
    (Comm.handleDataLine a s l).decodedText =
      (Comm.handleDataLineCore s l).decodedText := by
  rw [handleDataLine_eq a s l hl]
  split <;> rfl

/-- Helper: with auto-save enabled, the save counter advances on a
non-empty line exactly when the resulting `decodedText` is non-empty
with length a multiple of 10. -/
theorem handleDataLine_saveCount (s : Comm.DecoderState) (l : Str)
    (hl : l ≠ []) :
    (Comm.handleDataLine true s l).saveCount =
      s.saveCount +
        (if 0 < (Comm.handleDataLine true s l).decodedText.length ∧
            (Comm.handleDataLine true s l).decodedText.length % 10 = 0
         then 1 else 0) := by
  rw [handleDataLine_decodedText true s l hl, handleDataLine_eq true s l hl]
  by_cases hc : 0 < (Comm.handleDataLineCore s l).decodedText.length ∧
      (Comm.handleDataLineCore s l).decodedText.length % 10 = 0
  · rw [if_pos ⟨rfl, hc⟩, if_pos hc]
    simp [handleDataLineCore_saveCount]
  · rw [if_neg (by simpa using hc), if_neg hc]
    simp [handleDataLineCore_saveCount]

/-- C2, amended: with auto-save enabled, over any sequence of non-empty
lines the auto-save callback fires exactly once per processed line
after which `decodedText` is non-empty with length a multiple of 10 —
so it fires again on later lines while the length stays at a multiple
of 10, and a crossing that jumps over a multiple of 10 without landing
on it triggers no save. -/
theorem C2_amended (s : Comm.DecoderState) (lines : List Str)
    (h : ∀ l ∈ lines, l ≠ []) :
    (Comm.processLines true s lines).saveCount =
      s.saveCount + boundaryHits s lines := by
  induction lines generalizing s with
  | nil => simp [Comm.processLines, boundaryHits]
  | cons l ls ih =>
    have hl : l ≠ [] := h l (by simp)
    have hrest : ∀ x ∈ ls, x ≠ [] := fun x hx => h x (by simp [hx])
    show (Comm.processLines true (Comm.handleDataLine true s l) ls).saveCount = _
    rw [ih (Comm.handleDataLine true s l) hrest,
      handleDataLine_saveCount s l hl]
    simp only [boundaryHits]
    omega

/-- C2, witness: ten `"."` lines followed by `"BLINK:x"` (all
non-empty) give a save counter equal to the number of
boundary-hitting prefixes (which is 2). -/
theorem C2_amended_witness :
    (Comm.processLines true Comm.initState
        (List.replicate 10 ((".").toList) ++
          [("BLINK:x").toList])).saveCount =
      Comm.initState.saveCount +
        boundaryHits Comm.initState
          (List.replicate 10 ((".").toList) ++ [("BLINK:x").toList]) :=
  C2_amended Comm.initState
    (List.replicate 10 ((".").toList) ++ [("BLINK:x").toList])
    (by decide)

/-- Helper: `trim` of the empty string is empty. -/
theorem trim_nil : trim [] = [] := rfl

/-- Helper: splitting a string that ends in the separator appends one
final empty segment to the split of the rest. -/
theorem splitOnChar_concat (sep : Char) (xs : Str) :
    splitOnChar sep (xs ++ [sep]) = splitOnChar sep xs ++ [[]] := by
  induction xs with
  | nil => simp [splitOnChar]
  | cons c xs ih =>
    obtain ⟨t0, ts0, hts⟩ :=
      List.exists_cons_of_ne_nil (splitOnChar_ne_nil sep xs)
    simp only [List.cons_append, splitOnChar, List.append_eq]
    rw [ih, hts]
    simp only [List.cons_append]
    split <;> simp

/-- Helper: the Bluetooth handler's lines for a newline-terminated
payload. -/
theorem btOf_concat (xs : Str) :
    Comm.btOf (xs ++ ['\n']) =
      ((splitOnChar '\n' xs).map trim).filter (fun l => l ≠ []) := by
  unfold Comm.btOf
  rw [splitOnChar_concat]
  simp [trim_nil]

/-- Helper: a `LineBreakTransformer` step on an empty buffer and a
newline-terminated chunk empties the buffer and emits exactly the
Bluetooth handler's lines for that chunk. -/
theorem lbtTransform_nil (xs : Str) :
    Comm.lbtTransform [] (xs ++ ['\n']) = ([], Comm.btOf (xs ++ ['\n'])) := by
  unfold Comm.lbtTransform
  dsimp only
  rw [List.nil_append, splitOnChar_concat, btOf_concat]
  simp

/-- Helper: over newline-terminated chunks the transformer keeps an
empty buffer and emits the Bluetooth handler's line sequence. -/
theorem lbtRun_newline (chunks : List Str)
    (h : ∀ c ∈ chunks, ∃ xs, c = xs ++ ['\n']) :
    Comm.lbtRun [] chunks = ([], Comm.bluetoothLines chunks) := by
  induction chunks with
  | nil => rfl
  | cons c cs ih =>
    obtain ⟨xs, rfl⟩ := h c (by simp)
    have hrest : ∀ x ∈ cs, ∃ ys, x = ys ++ ['\n'] :=
      fun x hx => h x (by simp [hx])
    simp only [Comm.lbtRun, lbtTransform_nil, ih hrest,
      Comm.bluetoothLines]

/-- C3, counterexample: the chunk sequence `["AB", "C\n"]` splits the
line `"ABC"` across two chunks; the Bluetooth handler forwards
`["AB", "C"]` while the serial line-break transformer forwards
`["ABC"]` — the two transports do not deliver the same line sequence. -/
theorem C3_counterexample :
    Comm.bluetoothLines [("AB").toList, ("C\n").toList] =
      [("AB").toList, ("C").toList] ∧
    Comm.serialLines [("AB").toList, ("C\n").toList] =
      [("ABC").toList] ∧
    Comm.bluetoothLines [("AB").toList, ("C\n").toList] ≠
      Comm.serialLines [("AB").toList, ("C\n").toList] := by
  decide

/-- C3, amended: the Bluetooth notification handler and the serial
line-break transformer forward the identical sequence of trimmed
non-empty lines whenever every chunk ends with a newline (no line is
split across chunk boundaries); a line split across chunks is
reassembled only by the serial path, so equivalence holds exactly when
chunk boundaries coincide with line boundaries. -/
theorem C3_amended (chunks : List Str)
    (h : ∀ c ∈ chunks, ∃ xs, c = xs ++ ['\n']) :
    Comm.bluetoothLines chunks = Comm.serialLines chunks := by
  unfold Comm.serialLines
  rw [lbtRun_newline chunks h]
  simp [trim_nil]

/-- C3, witness: for the newline-terminated chunks `[".-\n", "-.\n"]`
both transports deliver the same lines. -/
theorem C3_amended_witness :
    Comm.bluetoothLines [(".-\n").toList, ("-.\n").toList] =
      Comm.serialLines [(".-\n").toList, ("-.\n").toList] :=
  C3_amended [(".-\n").toList, ("-.\n").toList] (by
    intro c hc
    simp only [List.mem_cons, List.not_mem_nil, or_false] at hc
    rcases hc with rfl | rfl
    · exact ⟨(".-").toList, rfl⟩
    · exact ⟨("-.").toList, rfl⟩)
